import Mathlib

/-!
Verification of the phase-preserving dynamic range compression pipeline
(`src/phasepack/ppdrc.py`) against its specification.

Modelling notes.  The source is a MATLAB-to-Python transliteration; several
helper names (`length`, `sin`, `log1p`, `max`, `abs`) and the call-vs-index
syntax (`phase(k)`, `dim(k)[0]`) only make sense under their intended
MATLAB/NumPy meanings, which the embedding below uses: `length` is the list
length, `phase(k)` is indexing, `max(abs(x))` is the maximum absolute value
over all cells, and `dim(k)[0]`/`dim(k)[1]` write the first two pixels in
flat (row-major) addressing, as the adjacent source comment states
("Set the first two pixels of each image").  Fields are modelled as flat
lists of real cell values; the raw input marks a NaN (no-data) cell as
`none`.  The three external collaborators (inpainting filler, monogenic
signal provider, histogram truncator) are opaque parameters bundled in
`Collab`; of the six outputs of `highpassmonogenic` only the per-scale phase
and energy lists are consumed by this code, so the four unused outputs are
elided.  The Python expression `max(range_ary)` raises on an empty list,
which the embedding renders as an `Option` result (`listMax`).  The literal
source line `mask = np.argwhere(np.isnan(im))` yields a list of NaN
coordinates, which cannot serve as the multiplicative mask consumed at the
line `histtruncate(...) * mask`; that literal expression is embedded as
`argwhereIsnan`, while the pipeline uses the mask the source comment and the
specification describe (`nodataMask`, the binary 0/1 field).
-/

namespace Phasepack

/-- A derived field: flat (row-major) list of real cell values. -/
abbrev Field : Type := List ℝ

/-- The raw input field: flat list of cells, with `none` marking a NaN
(no-data) cell. -/
abbrev RawField : Type := List (Option ℝ)

/-- The three external collaborators consumed by the pipeline (spec section 6):
the NaN filler, the monogenic signal provider (returning the per-scale phase
and energy lists; its other outputs are unused by this code), and the
histogram truncator. -/
structure Collab where
  fillnan : RawField → Field
  highpassmonogenic : Field → List ℝ → ℕ → List Field × List Field
  histtruncate : Field → ℝ → ℝ → Field

/-- Default substitution for the filter order: `if n == None: n = 2`. -/
def defaultN (n : Option ℕ) : ℕ :=
  match n with
  | none => 2
  | some v => v

/-- Default substitution for the clip percentage:
`if clip == None: clip = 0.01`. -/
noncomputable def defaultClip (clip : Option ℝ) : ℝ :=
  match clip with
  | none => 0.01
  | some v => v

/-- The no-data mask consumed multiplicatively by the pipeline: a same-shape
field that is 0 at every NaN cell and 1 elsewhere.  This is the mask the
source comment ("Identify no-data regions in the image") and the
specification (section 4.1) describe; the literal transliterated line
computes `np.argwhere(np.isnan(im))` instead, embedded separately as
`argwhereIsnan`. -/
def nodataMask (im : RawField) : Field :=
  im.map (fun c => if c.isNone then 0 else 1)

/-- The literal source expression `np.argwhere(np.isnan(im))` on a
two-dimensional input: the row-major list of coordinates of the NaN cells. -/
def argwhereIsnan (im : List (List (Option ℝ))) : List (ℕ × ℕ) :=
  (im.enum.map
    (fun r => r.2.enum.filterMap
      (fun c => if c.2.isNone then some (r.1, c.1) else none))).flatten

/-- Pointwise product of two fields (NumPy `*` on same-shape arrays). -/
def fmul (f g : Field) : Field :=
  List.zipWith (· * ·) f g

/-- The amplitude compressor: `sin(phase) * log1p(E)` pointwise
(spec section 4.4). -/
noncomputable def compress (phase E : Field) : Field :=
  List.zipWith (fun p e => Real.sin p * Real.log (1 + e)) phase E

/-- Maximum absolute cell value of a field: `max(abs(dim_tmp))` over all
cells. -/
noncomputable def maxAbs (f : Field) : ℝ :=
  f.foldr (fun x r => max |x| r) 0

/-- Python builtin `max` over a list: the greatest element, failing (`none`)
on an empty list exactly as `max([])` raises `ValueError`. -/
noncomputable def listMax : List ℝ → Option ℝ
  | [] => none
  | a :: as => some (as.foldl max a)

/-- Calibration stamping of one image: `dim(k)[0] = maxrange;
dim(k)[1] = -maxrange` — the first two pixels in flat addressing. -/
def stamp (maxrange : ℝ) (f : Field) : Field :=
  (f.set 0 maxrange).set 1 (-maxrange)

/-- The per-scale body of the first loop:
`histtruncate(sin(phase(k)) * log1p(E(k)), clip, clip) * mask`.
The truncation is applied to the unmasked compressed field and the mask is
multiplied onto the truncated result. -/
noncomputable def perScale (C : Collab) (mask : Field) (clip : ℝ)
    (phase E : Field) : Field :=
  fmul (C.histtruncate (compress phase E) clip clip) mask

/-- The list `dim` as built by the first loop of `ppdrc`, before the
calibration stamping: one `perScale` image per wavelength, each using the
mask derived from the original (pre-fill) input and the phase/energy lists
from the single batched `highpassmonogenic` call on the filled input. -/
noncomputable def ppdrcPre (C : Collab) (im : RawField) (wavelength : List ℝ)
    (clip : ℝ) (n : ℕ) : List Field :=
  let mask := nodataMask im
  let sig := C.highpassmonogenic (C.fillnan im) wavelength n
  (List.range wavelength.length).map
    (fun k => perScale C mask clip (sig.1.getD k []) (sig.2.getD k []))

/-- The pipeline `ppdrc(im, wavelength, clip, n)`: substitute defaults for
`None` arguments, build the per-scale images, take `maxrange` as the maximum
over scales of the per-scale maximum absolute value, stamp the first two
pixels of every image with `+maxrange` and `-maxrange`, and return the list
of images (the source returns the list `dim` unconditionally).  The `none`
result corresponds to the `ValueError` that `max(range_ary)` raises when the
wavelength list is empty. -/
noncomputable def ppdrc (C : Collab) (im : RawField) (wavelength : List ℝ)
    (clip : Option ℝ) (n : Option ℕ) : Option (List Field) :=
  match listMax ((ppdrcPre C im wavelength (defaultClip clip) (defaultN n)).map maxAbs) with
  | none => none
  | some maxrange =>
      some ((ppdrcPre C im wavelength (defaultClip clip) (defaultN n)).map (stamp maxrange))

/-! Concrete collaborator instances, used to evaluate the pipeline on explicit
inputs.  They satisfy the collaborator contracts of spec section 6 (same-shape
outputs, NaN-free fill). -/

/-- A concrete filler: replace every NaN cell by 0. -/
def fillZero : RawField → Field := fun im => im.map (fun c => c.getD 0)

/-- A concrete signal provider: for every wavelength, return all-zero phase
and energy fields of the same shape as the filled input. -/
def zeroSignal : Field → List ℝ → ℕ → List Field × List Field :=
  fun f w _ => (w.map (fun _ => f.map (fun _ => 0)), w.map (fun _ => f.map (fun _ => 0)))

/-- A concrete truncator that keeps the field unchanged (a 0 percent clip). -/
def idTruncate : Field → ℝ → ℝ → Field := fun f _ _ => f

/-- Concrete collaborator bundle built from the three instances above. -/
def collabA : Collab := ⟨fillZero, zeroSignal, idTruncate⟩

/-- A concrete data-dependent truncator: clamp every cell from above at half
the maximum absolute value of the field it is given.  Like a genuine
percentile clip, its output at a kept cell depends on the whole value
distribution of its input field. -/
noncomputable def clampHalfTrunc : Field → ℝ → ℝ → Field :=
  fun f _ _ => f.map (fun x => min x (maxAbs f / 2))

/-- Collaborator bundle with the data-dependent truncator. -/
noncomputable def collabB : Collab := ⟨fillZero, zeroSignal, clampHalfTrunc⟩

/-- Concrete raw input: three cells, the last one a no-data (NaN) cell. -/
def imA : RawField := [some 5, some 6, none]

/-- Concrete two-cell phase field with both phases at pi over two, so the sine
factor is 1 at both cells. -/
noncomputable def phaseB : Field := [Real.pi / 2, Real.pi / 2]

/-- Concrete two-cell energy field chosen so that `log1p` yields 1 and 2. -/
noncomputable def energyB : Field := [Real.exp 1 - 1, Real.exp 2 - 1]

/-- Concrete mask with the second cell marked as no-data. -/
def maskB : Field := [1, 0]

/-! Helper lemmas about the embedded operations. -/

theorem fmul_get? {f g : Field} {p : ℕ} {x y : ℝ}
    (hf : f.get? p = some x) (hg : g.get? p = some y) :
    (fmul f g).get? p = some (x * y) :=
  (List.get?_zipWith_eq_some _ _ _ _ _).mpr ⟨x, y, hf, hg, rfl⟩

theorem fmul_length (f g : Field) : (fmul f g).length = min f.length g.length :=
  List.length_zipWith _ _ _

theorem compress_length (phase E : Field) :
    (compress phase E).length = min phase.length E.length :=
  List.length_zipWith _ _ _

theorem stamp_length (m : ℝ) (f : Field) : (stamp m f).length = f.length := by
  simp [stamp]

theorem stamp_get?_of_two_le (m : ℝ) (f : Field) (p : ℕ) (hp : 2 ≤ p) :
    (stamp m f).get? p = f.get? p := by
  obtain ⟨q, rfl⟩ : ∃ q, p = q + 2 := ⟨p - 2, by omega⟩
  match f with
  | [] => rfl
  | [a] => rfl
  | a :: b :: t => rfl

theorem stamp_get?_zero (m : ℝ) (f : Field) (hf : 2 ≤ f.length) :
    (stamp m f).get? 0 = some m := by
  match f with
  | [] => simp at hf
  | [a] => simp at hf
  | a :: b :: t => rfl

theorem stamp_get?_one (m : ℝ) (f : Field) (hf : 2 ≤ f.length) :
    (stamp m f).get? 1 = some (-m) := by
  match f with
  | [] => simp at hf
  | [a] => simp at hf
  | a :: b :: t => rfl

theorem nodataMask_length (im : RawField) : (nodataMask im).length = im.length := by
  simp [nodataMask]

theorem nodataMask_get? {im : RawField} {p : ℕ} {c : Option ℝ}
    (h : im.get? p = some c) :
    (nodataMask im).get? p = some (if c.isNone then 0 else 1) := by
  simp [nodataMask, List.get?_eq_getElem?, List.getElem?_map]
  rw [List.get?_eq_getElem?] at h
  simp [h]

theorem listMax_eq_none_iff (l : List ℝ) : listMax l = none ↔ l = [] := by
  cases l <;> simp [listMax]

theorem ppdrcPre_length (C : Collab) (im : RawField) (w : List ℝ) (clip : ℝ) (n : ℕ) :
    (ppdrcPre C im w clip n).length = w.length := by
  simp [ppdrcPre]

theorem ppdrcPre_get? (C : Collab) (im : RawField) (w : List ℝ) (clip : ℝ) (n : ℕ)
    (k : ℕ) (hk : k < w.length) :
    (ppdrcPre C im w clip n).get? k =
      some (perScale C (nodataMask im) clip
        ((C.highpassmonogenic (C.fillnan im) w n).1.getD k [])
        ((C.highpassmonogenic (C.fillnan im) w n).2.getD k [])) := by
  simp [ppdrcPre, List.get?_eq_getElem?, List.getElem?_map, List.getElem?_range hk]

theorem ppdrc_eq_some {C : Collab} {im : RawField} {w : List ℝ} {cl : Option ℝ}
    {nn : Option ℕ} {dims : List Field}
    (h : ppdrc C im w cl nn = some dims) :
    ∃ m, listMax ((ppdrcPre C im w (defaultClip cl) (defaultN nn)).map maxAbs) = some m ∧
      dims = (ppdrcPre C im w (defaultClip cl) (defaultN nn)).map (stamp m) := by
  unfold ppdrc at h
  cases hm : listMax ((ppdrcPre C im w (defaultClip cl) (defaultN nn)).map maxAbs) with
  | none => rw [hm] at h; exact absurd h (by simp)
  | some m => rw [hm] at h; exact ⟨m, rfl, (Option.some_inj.mp h).symm⟩

/-! Concrete evaluations of the pipeline, shared by several witnesses. -/

theorem ppdrcPre_collabA_eval :
    ppdrcPre collabA imA [50] (defaultClip none) (defaultN none) = [[0, 0, 0]] := by
  simp [ppdrcPre, perScale, compress, fmul, nodataMask, collabA, fillZero, zeroSignal,
    idTruncate, imA, Real.sin_zero, Real.log_one, List.range_succ]

theorem ppdrc_collabA_eval : ppdrc collabA imA [50] none none = some [[0, 0, 0]] := by
  rw [ppdrc, ppdrcPre_collabA_eval]
  norm_num [listMax, maxAbs, stamp]

theorem ppdrc_collabA_eval_invalid :
    ppdrc collabA imA [50] (some (-1)) (some 0) = some [[0, 0, 0]] := by
  have hpre : ppdrcPre collabA imA [50] (defaultClip (some (-1))) (defaultN (some 0)) =
      [[0, 0, 0]] := by
    simp [ppdrcPre, perScale, compress, fmul, nodataMask, collabA, fillZero, zeroSignal,
      idTruncate, imA, Real.sin_zero, Real.log_one, List.range_succ]
  rw [ppdrc, hpre]
  norm_num [listMax, maxAbs, stamp]

theorem compress_phaseB_energyB : compress phaseB energyB = [1, 2] := by
  have e1 : (1:ℝ) + (Real.exp 1 - 1) = Real.exp 1 := by ring
  have e2 : (1:ℝ) + (Real.exp 2 - 1) = Real.exp 2 := by ring
  simp [compress, phaseB, energyB, Real.sin_pi_div_two, e1, e2, Real.log_exp]

/-! Claim theorems. -/

/-- C1: for every input field and every position at which the original input
was NaN, the corresponding position in every returned compressed image equals
exactly 0 — the two calibration pixels (flat positions 0 and 1) being the
only permitted exception.  The hypotheses are the collaborator contracts of
spec section 6: the truncator preserves shape and the signal provider returns
per-scale fields of the input shape. -/
theorem C1_nodata_positions_zero (C : Collab) (im : RawField) (w : List ℝ)
    (cl : Option ℝ) (nn : Option ℕ) (dims : List Field) (d : Field) (p : ℕ)
    (hT : ∀ f a b, (C.histtruncate f a b).length = f.length)
    (hsig : ∀ k, k < w.length →
      ((C.highpassmonogenic (C.fillnan im) w (defaultN nn)).1.getD k []).length = im.length ∧
      ((C.highpassmonogenic (C.fillnan im) w (defaultN nn)).2.getD k []).length = im.length)
    (hrun : ppdrc C im w cl nn = some dims)
    (hd : d ∈ dims) (hp : 2 ≤ p) (hnan : im.get? p = some none) :
    d.get? p = some 0 := by
  obtain ⟨m, hm, rfl⟩ := ppdrc_eq_some hrun
  rw [List.mem_map] at hd
  obtain ⟨e, he, rfl⟩ := hd
  rw [stamp_get?_of_two_le _ _ _ hp]
  simp only [ppdrcPre, List.mem_map, List.mem_range] at he
  obtain ⟨k, hk, rfl⟩ := he
  obtain ⟨hp1, hp2⟩ := hsig k hk
  have hplen : p < im.length := by
    obtain ⟨h, -⟩ := List.get?_eq_some.mp hnan
    exact h
  have hclen : (C.histtruncate
      (compress ((C.highpassmonogenic (C.fillnan im) w (defaultN nn)).1.getD k [])
        ((C.highpassmonogenic (C.fillnan im) w (defaultN nn)).2.getD k []))
      (defaultClip cl) (defaultClip cl)).length = im.length := by
    rw [hT, compress_length, hp1, hp2, min_self]
  have hplt : p < (C.histtruncate
      (compress ((C.highpassmonogenic (C.fillnan im) w (defaultN nn)).1.getD k [])
        ((C.highpassmonogenic (C.fillnan im) w (defaultN nn)).2.getD k []))
      (defaultClip cl) (defaultClip cl)).length := hclen ▸ hplen
  have hx := List.get?_eq_get hplt
  have hmask : (nodataMask im).get? p = some 0 := by
    have h0 := nodataMask_get? hnan
    simpa using h0
  rw [perScale, fmul_get? hx hmask]
  simp

/-- Witness for C1: on the concrete run `ppdrc collabA imA [50] none none`,
position 2 of the input is NaN and position 2 of the single returned image is
exactly 0. -/
theorem C1_nodata_positions_zero_witness :
    ppdrc collabA imA [50] none none = some [[0, 0, 0]] ∧
      imA.get? 2 = some none ∧ ([0, 0, 0] : Field).get? 2 = some 0 :=
  ⟨ppdrc_collabA_eval, rfl,
    C1_nodata_positions_zero collabA imA [50] none none [[0, 0, 0]] [0, 0, 0] 2
      (fun _ _ _ => rfl)
      (fun k hk => by
        have hk0 : k = 0 := by simpa using hk
        subst hk0
        exact ⟨rfl, rfl⟩)
      ppdrc_collabA_eval (by simp) (by norm_num) rfl⟩

/-- C2: after clipping, every returned image carries the calibration pixels:
flat position 0 holds `+maxrange` and flat position 1 holds `-maxrange`,
where `maxrange` is the maximum over all scales of the per-scale maximum
absolute value of the pre-stamp (clipped) images. -/
theorem C2_calibration_pixels (C : Collab) (im : RawField) (w : List ℝ)
    (cl : Option ℝ) (nn : Option ℕ) (dims : List Field) (k : ℕ) (d : Field)
    (hrun : ppdrc C im w cl nn = some dims)
    (hk : dims.get? k = some d) (hlen : 2 ≤ d.length) :
    d.get? 0 =
      some ((listMax ((ppdrcPre C im w (defaultClip cl) (defaultN nn)).map maxAbs)).getD 0) ∧
    d.get? 1 =
      some (-(listMax ((ppdrcPre C im w (defaultClip cl) (defaultN nn)).map maxAbs)).getD 0) := by
  obtain ⟨m, hm, rfl⟩ := ppdrc_eq_some hrun
  rw [hm, Option.getD_some]
  rw [List.get?_eq_getElem?, List.getElem?_map] at hk
  obtain ⟨e, -, rfl⟩ := Option.map_eq_some'.mp hk
  have hel : 2 ≤ e.length := by
    rw [stamp_length] at hlen
    exact hlen
  exact ⟨stamp_get?_zero m e hel, stamp_get?_one m e hel⟩

/-- Witness for C2: on the concrete run `ppdrc collabA imA [50] none none`,
the returned image has the stamped calibration values at flat positions 0
and 1. -/
theorem C2_calibration_pixels_witness :
    ppdrc collabA imA [50] none none = some [[0, 0, 0]] ∧
    (([0, 0, 0] : Field).get? 0 =
      some ((listMax ((ppdrcPre collabA imA [50] (defaultClip none) (defaultN none)).map
        maxAbs)).getD 0) ∧
    ([0, 0, 0] : Field).get? 1 =
      some (-(listMax ((ppdrcPre collabA imA [50] (defaultClip none) (defaultN none)).map
        maxAbs)).getD 0)) :=
  ⟨ppdrc_collabA_eval,
    C2_calibration_pixels collabA imA [50] none none [[0, 0, 0]] 0 [0, 0, 0]
      ppdrc_collabA_eval rfl (by norm_num)⟩

/-- C3 (code bug): the docstring promises that with a single wavelength the
image is returned directly and not as a one-element cell array, but the
source returns the list `dim` unconditionally; here a call with the
one-element wavelength list `[50]` evaluates to a one-element list of images,
not to a bare field. -/
theorem C3_single_scale_not_collapsed :
    ppdrc collabA imA [50] none none = some [[0, 0, 0]] ∧
      (ppdrc collabA imA [50] none none).map List.length = some 1 := by
  refine ⟨ppdrc_collabA_eval, ?_⟩
  rw [ppdrc_collabA_eval]
  rfl

/-- C4 counterexample: a call with `clip = -1` (outside `[0, 50)`) and filter
order 0 (not a positive integer) is not rejected: the pipeline runs to
completion and returns a result, so no `InvalidParameter` failure occurs. -/
theorem C4_counterexample : ppdrc collabA imA [50] (some (-1)) (some 0) ≠ none := by
  rw [ppdrc_collabA_eval_invalid]
  simp

/-- C4 (amended): the source performs no parameter validation at all — no
clip, order, or wavelength check precedes the collaborator calls.  A call
fails exactly when the wavelength list is empty, and that failure is the
`ValueError` of `max(range_ary)` on an empty list at the end of the pipeline,
not an upfront `InvalidParameter` rejection. -/
theorem C4_no_parameter_validation (C : Collab) (im : RawField) (w : List ℝ)
    (cl : Option ℝ) (nn : Option ℕ) :
    (ppdrc C im w cl nn).isSome ↔ w ≠ [] := by
  cases w with
  | nil =>
    have hnone : listMax ((ppdrcPre C im [] (defaultClip cl) (defaultN nn)).map maxAbs) =
        none := by
      simp [ppdrcPre, listMax]
    rw [ppdrc, hnone]
    simp
  | cons a t =>
    have hne : (ppdrcPre C im (a :: t) (defaultClip cl) (defaultN nn)).map maxAbs ≠ [] := by
      have : ((ppdrcPre C im (a :: t) (defaultClip cl) (defaultN nn)).map maxAbs).length =
          t.length + 1 := by
        rw [List.length_map, ppdrcPre_length]
        rfl
      intro hcontra
      rw [hcontra] at this
      simp at this
    cases hm : listMax ((ppdrcPre C im (a :: t) (defaultClip cl) (defaultN nn)).map maxAbs) with
    | none => exact absurd (listMax_eq_none_iff _ |>.mp hm) hne
    | some m =>
      rw [ppdrc, hm]
      simp

/-- C5 counterexample: the claimed order (compress, then mask, then clip) is
refuted at a concrete input.  With the data-dependent truncator of `collabB`
(which, like a genuine histogram clip, depends on the whole value
distribution of its input), truncating the unmasked compressed field and then
masking — what the source line does — differs from masking first and
truncating afterwards. -/
theorem C5_counterexample :
    perScale collabB maskB 0.01 phaseB energyB ≠
      collabB.histtruncate (fmul (compress phaseB energyB) maskB) 0.01 0.01 := by
  have hc := compress_phaseB_energyB
  have hL : perScale collabB maskB 0.01 phaseB energyB = [1, 0] := by
    rw [perScale, hc]
    show fmul (clampHalfTrunc [1, 2] 0.01 0.01) maskB = [1, 0]
    norm_num [clampHalfTrunc, maxAbs, fmul, maskB]
  have hR : collabB.histtruncate (fmul (compress phaseB energyB) maskB) 0.01 0.01 =
      [1 / 2, 0] := by
    rw [hc]
    show clampHalfTrunc (fmul [1, 2] maskB) 0.01 0.01 = [1 / 2, 0]
    norm_num [clampHalfTrunc, maxAbs, fmul, maskB]
  rw [hL, hR]
  intro h
  simp only [List.cons.injEq] at h
  exact absurd h.1 (by norm_num)

/-- C5 (amended): the per-scale processing order is compress, then clip, then
mask — the truncator is applied to the unmasked compressed field, and the
mask multiplies the truncated result.  Consequently a masked (no-data) cell
of the per-scale image is 0, and an unmasked cell carries the truncation of
the unmasked compressed field at that cell. -/
theorem C5_mask_after_clip (C : Collab) (mask : Field) (clip : ℝ)
    (phase E : Field) (p : ℕ) (x : ℝ)
    (hx : (C.histtruncate (compress phase E) clip clip).get? p = some x) :
    (mask.get? p = some 0 → (perScale C mask clip phase E).get? p = some 0) ∧
    (mask.get? p = some 1 → (perScale C mask clip phase E).get? p = some x) := by
  constructor
  · intro h0
    rw [perScale, fmul_get? hx h0]
    simp
  · intro h1
    rw [perScale, fmul_get? hx h1]
    simp

/-- Witness for C5 (amended): a concrete per-scale evaluation in which the
masked cell of the per-scale image is 0. -/
theorem C5_mask_after_clip_witness :
    (collabA.histtruncate (compress [0] [0]) 0.01 0.01).get? 0 =
      some (Real.sin 0 * Real.log (1 + 0)) ∧
    (perScale collabA [0] 0.01 [0] [0]).get? 0 = some 0 :=
  ⟨rfl,
    (C5_mask_after_clip collabA [0] 0.01 [0] [0] 0 (Real.sin 0 * Real.log (1 + 0))
      rfl).1 rfl⟩

/-- C6 (code bug): the source line `mask = np.argwhere(np.isnan(im))`
evaluates, on the concrete input `[[NaN, 1], [2, 3]]`, to the coordinate list
`[(0, 0)]` — an index array with one row — and not to the same-shape binary
field `[[0, 1], [1, 1]]` that the claim (and the masking use at the
`histtruncate(...) * mask` line) requires. -/
theorem C6_argwhere_is_not_binary_mask :
    argwhereIsnan [[none, some 1], [some 2, some 3]] = [(0, 0)] ∧
      (argwhereIsnan [[none, some 1], [some 2, some 3]]).length ≠
        ([[none, some 1], [some 2, some 3]] : List (List (Option ℝ))).length := by
  constructor
  · rfl
  · intro h
    rw [show argwhereIsnan [[none, some 1], [some 2, some 3]] = [(0, 0)] from rfl] at h
    simp at h

/-- C7: at every cell, the compressed field equals
`sin(phase) * log(1 + energy)`, and when the energy at that cell is
non-negative the compressed value is bounded in absolute value by
`log(1 + energy)`. -/
theorem C7_compress_pointwise_and_bound (phase E : Field) (p : ℕ) (pv ev : ℝ)
    (hp : phase.get? p = some pv) (hE : E.get? p = some ev) (hev : 0 ≤ ev) :
    (compress phase E).get? p = some (Real.sin pv * Real.log (1 + ev)) ∧
    |Real.sin pv * Real.log (1 + ev)| ≤ Real.log (1 + ev) := by
  constructor
  · exact (List.get?_zipWith_eq_some _ _ _ _ _).mpr ⟨pv, ev, hp, hE, rfl⟩
  · have hL : 0 ≤ Real.log (1 + ev) := Real.log_nonneg (by linarith)
    have hs : |Real.sin pv| ≤ 1 := abs_le.mpr ⟨Real.neg_one_le_sin pv, Real.sin_le_one pv⟩
    calc |Real.sin pv * Real.log (1 + ev)|
        = |Real.sin pv| * |Real.log (1 + ev)| := abs_mul _ _
      _ ≤ 1 * |Real.log (1 + ev)| := by
          exact mul_le_mul_of_nonneg_right hs (abs_nonneg _)
      _ = |Real.log (1 + ev)| := one_mul _
      _ = Real.log (1 + ev) := abs_of_nonneg hL

/-- Witness for C7: a concrete cell with phase 0 and energy 0. -/
theorem C7_compress_pointwise_and_bound_witness :
    (0 : ℝ) ≤ 0 ∧
    ((compress [0] [0]).get? 0 = some (Real.sin 0 * Real.log (1 + 0)) ∧
      |Real.sin 0 * Real.log (1 + 0)| ≤ Real.log (1 + 0)) :=
  ⟨le_refl 0, C7_compress_pointwise_and_bound [0] [0] 0 0 0 rfl rfl (le_refl 0)⟩

/-- C8: the k-th per-scale image is built from the no-data mask of the
original (pre-inpainting) input — the same `nodataMask im` for every scale —
and from the phase and energy lists of the single batched
`highpassmonogenic` call on the filled input covering all wavelengths. -/
theorem C8_one_mask_one_batched_call (C : Collab) (im : RawField) (w : List ℝ)
    (clip : ℝ) (n : ℕ) (k : ℕ) (hk : k < w.length) :
    (ppdrcPre C im w clip n).get? k =
      some (perScale C (nodataMask im) clip
        ((C.highpassmonogenic (C.fillnan im) w n).1.getD k [])
        ((C.highpassmonogenic (C.fillnan im) w n).2.getD k [])) :=
  ppdrcPre_get? C im w clip n k hk

/-- Witness for C8: the concrete run at scale 0. -/
theorem C8_one_mask_one_batched_call_witness :
    0 < 1 ∧
    (ppdrcPre collabA imA [50] 0.01 2).get? 0 =
      some (perScale collabA (nodataMask imA) 0.01
        ((collabA.highpassmonogenic (collabA.fillnan imA) [50] 2).1.getD 0 [])
        ((collabA.highpassmonogenic (collabA.fillnan imA) [50] 2).2.getD 0 [])) :=
  ⟨Nat.zero_lt_one,
    C8_one_mask_one_batched_call collabA imA [50] 0.01 2 0 (by norm_num)⟩

/-- C9: applying the no-data mask multiplicatively twice to any field gives
the same result as applying it once — the mask is binary, hence idempotent
under pointwise multiplication. -/
theorem C9_mask_idempotent (im : RawField) (f : Field) :
    fmul (fmul f (nodataMask im)) (nodataMask im) = fmul f (nodataMask im) := by
  induction im generalizing f with
  | nil => simp [fmul, nodataMask]
  | cons c t ih =>
    cases f with
    | nil => simp [fmul, nodataMask]
    | cons x xs =>
      simp only [nodataMask, List.map_cons, fmul, List.zipWith_cons_cons]
      refine congrArg₂ List.cons ?_ (ih xs)
      cases c <;> simp

/-- C10: default substitution happens exactly for a `None` argument — clip
defaults to 0.01 and the filter order to 2 — while every explicitly supplied
value, including `clip = 0`, is used unchanged. -/
theorem C10_default_substitution :
    defaultClip none = 0.01 ∧ defaultN none = 2 ∧
      (∀ c : ℝ, defaultClip (some c) = c) ∧ (∀ m : ℕ, defaultN (some m) = m) ∧
      defaultClip (some 0) = 0 :=
  ⟨rfl, rfl, fun _ => rfl, fun _ => rfl, rfl⟩

end Phasepack
